import Mathlib

/-!
Shallow embedding of the portfolio tracker in `src/main.py`.

Conventions of the embedding:
* Bar closes are modelled as exact rationals (`Rat`); every finite float is a
  rational, and no claim under verification depends on rounding.  The one
  place where IEEE-754 semantics is behaviourally relevant — numpy `float64`
  division by zero produces `inf`/`-inf`/`nan` with a `RuntimeWarning` rather
  than raising `ZeroDivisionError` — is modelled explicitly by `PVal`/`npDiv`.
* Python `None` becomes `Option.none`; code that can raise a Python exception
  is embedded in `Except PyErr`.
* A Python `dict` (insertion ordered, unique keys, assignment to an existing
  key updates in place) becomes an insertion-ordered association list together
  with `dictInsert`.
* `yf.Ticker(...).history(...)` is abstracted as an injected quote provider
  `Quotes : String → Option (List Rat)`: `none` models a raised-and-caught
  fetch exception, `some []` an empty DataFrame, `some closes` the `Close`
  column of a non-empty DataFrame.  The lookup key is `Stock.symbol`, since
  `Stock.__init__` builds the `yf.Ticker` from the upper-cased symbol.
* The decimal rendering of `f"{x:.2f}"` style formatting is abstracted by
  `toString`; no claim constrains the digits, only the structure of rows.
-/

/-- Result of a numpy `float64` arithmetic operation: a finite value (kept
exact as a rational) or one of the IEEE specials that numpy produces instead
of raising, e.g. on division by zero. -/
inductive PVal where
  | fin (q : Rat)
  | inf
  | ninf
  | nan
deriving DecidableEq, Repr

/-- numpy `float64` division: a zero denominator yields `inf`, `-inf` or
`nan` (with a `RuntimeWarning`, not an exception); otherwise exact division. -/
def npDiv (a b : Rat) : PVal :=
  if b = 0 then
    if 0 < a then PVal.inf else if a < 0 then PVal.ninf else PVal.nan
  else PVal.fin (a / b)

/-- Multiplication by the positive constant `100` (the `* 100` in
`get_daily_change_percent`), extended to the IEEE specials. -/
def pvalMul100 : PVal → PVal
  | PVal.fin q => PVal.fin (q * 100)
  | PVal.inf => PVal.inf
  | PVal.ninf => PVal.ninf
  | PVal.nan => PVal.nan

/-- Python `str.upper()` on the ASCII ticker strings this program handles:
upper-case every character.  (Defined over the character list so that it is
kernel-reducible; `String.toUpper` in core is not.) -/
def pyUpper (s : String) : String := ⟨s.data.map Char.toUpper⟩

/-- Python exceptions relevant to this program. -/
inductive PyErr where
  | typeError
deriving DecidableEq, Repr

/-- `Stock` (main.py lines 12-17): `__init__` sets `quantity = None`,
`symbol = ticker.upper()`, `data = None`.  The `self.ticker` handle is
absorbed into the quote provider keyed by `symbol`. -/
structure Stock where
  symbol : String
  quantity : Option Int
  data : Option (List Rat)
deriving DecidableEq, Repr

/-- The injected quote provider (yfinance `history`): `none` models a raised
fetch exception, `some closes` a returned DataFrame's `Close` column. -/
abbrev Quotes := String → Option (List Rat)

/-- `Stock.__init__(ticker)`: upper-cases the symbol, no quantity, no data. -/
def mkStock (ticker : String) : Stock :=
  { symbol := pyUpper ticker, quantity := none, data := none }

/-- Value returned by `Stock.get_data()` with `refresh=False` (lines 19-26):
the cached frame if present, otherwise the provider's response (`none` when
the fetch raised and the exception was caught). -/
def getDataP (quotes : Quotes) (s : Stock) : Option (List Rat) :=
  match s.data with
  | some d => some d
  | none => quotes s.symbol

/-- `Stock.get_price` (lines 28-37): `None` if the data is missing or empty,
otherwise the last close (`data['Close'].iloc[-1]`, which cannot raise on a
non-empty frame, so the `try` around it is dead for the modelled inputs). -/
def getPrice (quotes : Quotes) (s : Stock) : Option Rat :=
  match getDataP quotes s with
  | none => none
  | some closes => closes.getLast?

/-- Python multiplication `price * quantity` where either side may be `None`:
raises `TypeError` unless both are numbers (float times int). -/
def pyMulE (a : Option Rat) (b : Option Int) : Except PyErr Rat :=
  match a, b with
  | some x, some y => Except.ok (x * (y : Rat))
  | _, _ => Except.error PyErr.typeError

/-- `Stock.get_value` (lines 39-40): `return self.get_price() * self.quantity`
with no guard — a `None` price (or quantity) raises `TypeError`. -/
def getValue (quotes : Quotes) (s : Stock) : Except PyErr Rat :=
  pyMulE (getPrice quotes s) s.quantity

/-- `Stock.get_daily_change_percent` (lines 42-56): `None` when the data is
missing or has fewer than 2 rows; otherwise
`((close[-1] - close[-2]) / close[-2]) * 100` computed in numpy `float64`
arithmetic, so a zero prior close yields an IEEE special, not an exception —
the surrounding `try/except` never fires on that path. -/
def getDailyChangePercent (quotes : Quotes) (s : Stock) : Option PVal :=
  match getDataP quotes s with
  | none => none
  | some closes =>
    if closes.length < 2 then none
    else
      let yesterdayClose := closes.getD (closes.length - 2) 0
      let todayClose := closes.getD (closes.length - 1) 0
      some (pvalMul100 (npDiv (todayClose - yesterdayClose) yesterdayClose))

/-- One step of a pandas rolling window: append the new close, dropping the
oldest once the buffer holds `w` samples. -/
def rollStep (w : Nat) (buf : List Rat) (c : Rat) : List Rat :=
  if buf.length < w then buf ++ [c] else buf.tail ++ [c]

/-- Worker for `rollingMean`: carries the current window buffer, emitting
`none` until `w` samples have accumulated and the window mean afterwards. -/
def rollingMeanGo (w : Nat) (buf : List Rat) : List Rat → List (Option Rat)
  | [] => []
  | c :: rest =>
    (if (rollStep w buf c).length < w then none
     else some ((rollStep w buf c).sum / (w : Rat)))
      :: rollingMeanGo w (rollStep w buf c) rest

/-- `data['Close'].rolling(window=w).mean()` (line 63): with the default
`min_periods = window`, position `i` is `NaN` (here `none`) until `w` closes
are available and the arithmetic mean of the window ending at `i` afterwards. -/
def rollingMean (w : Nat) (closes : List Rat) : List (Option Rat) :=
  rollingMeanGo w [] closes

/-- `data['Close'] > sma_5` (line 65): pandas element-wise comparison, in
which any comparison against `NaN` (an absent SMA) is `False`. -/
def buySignalMask (w : Nat) (closes : List Rat) : List Bool :=
  List.zipWith
    (fun c sma => match sma with
      | some m => decide (m < c)
      | none => false)
    closes (rollingMean w closes)

/-- `Portfolio` (line 87-): `self.stocks` is a Python dict from ticker key to
`Stock`, insertion ordered. -/
structure Portfolio where
  stocks : List (String × Stock)
deriving DecidableEq, Repr

/-- `ticker in self.stocks`: dict key membership. -/
def containsKey (l : List (String × Stock)) (k : String) : Bool :=
  l.any (fun e => e.1 == k)

/-- Python dict assignment `d[k] = v`: updates in place (keeping the original
position) when the key exists, appends otherwise. -/
def dictInsert (l : List (String × Stock)) (k : String) (v : Stock) :
    List (String × Stock) :=
  if containsKey l k then l.map (fun e => if e.1 == k then (k, v) else e)
  else l ++ [(k, v)]

/-- The `Stock` built for one CSV row in `Portfolio.__init__` (lines 96-101):
`Stock(ticker)` then `stock.quantity = qty`, keyed by the raw ticker. -/
def loadedStock (r : String × Int) : Stock :=
  { symbol := pyUpper r.1, quantity := some r.2, data := none }

/-- The loading loop of `Portfolio.__init__` (lines 91-104) applied to the
already-parsed rows of `portfolio.csv` (each row a `Ticker` string and an
`Quantity` integer; `int(str)` parsing of a well-formed row is absorbed). -/
def loadFromCsv (rows : List (String × Int)) : Portfolio :=
  rows.foldl (fun p r => ⟨dictInsert p.stocks r.1 (loadedStock r)⟩) ⟨[]⟩

/-- `Portfolio.save_to_csv` (lines 155-163): one row per dict entry, in
order, carrying the key and the stock's quantity.  (`str(quantity)` for an
integer quantity round-trips through `int`; a `None` quantity — excluded by
hypothesis wherever this is used — would serialize unparsably.) -/
def saveToCsv (p : Portfolio) : List (String × Int) :=
  p.stocks.map (fun e => (e.1, e.2.quantity.getD 0))

/-- Outcome reported by `Portfolio.add_stock` via its printed messages. -/
inductive AddResult where
  | duplicateSymbol
  | invalidSymbol
  | added
deriving DecidableEq, Repr

/-- `Portfolio.add_stock` (lines 132-146): reject a present key; otherwise
build `Stock(ticker)`, fetch once to validate (`get_price`, which caches the
provider response in `data`), reject when no price is obtainable, else insert
the new stock under the raw ticker key and set its quantity. -/
def addStock (quotes : Quotes) (p : Portfolio) (ticker : String) (qty : Int) :
    AddResult × Portfolio :=
  if containsKey p.stocks ticker then (AddResult.duplicateSymbol, p)
  else
    match getPrice quotes (mkStock ticker) with
    | none => (AddResult.invalidSymbol, p)
    | some _ =>
      (AddResult.added,
        ⟨p.stocks ++
          [(ticker,
            { symbol := pyUpper ticker, quantity := some qty,
              data := quotes (pyUpper ticker) })]⟩)

/-- `Portfolio.remove_stock` (lines 148-153): `pop` the key when present
(removing exactly the entry with that key), otherwise report and do nothing. -/
def removeStock (p : Portfolio) (t : String) : Portfolio :=
  if containsKey p.stocks t then ⟨p.stocks.eraseP (fun e => e.1 == t)⟩ else p

/-- `Portfolio.get_total_value` (lines 192-194): `sum(...)` over every
stock's `get_value()`; the first `TypeError` raised inside the generator
propagates out of `sum`. -/
def getTotalValue (quotes : Quotes) (p : Portfolio) : Except PyErr Rat :=
  p.stocks.foldl
    (fun acc e => do
      let a ← acc
      let v ← getValue quotes e.2
      pure (a + v))
    (Except.ok 0)

/-- Rendering of an optional price (`{price}` in the error f-string). -/
def optRatStr : Option Rat → String
  | none => "None"
  | some q => toString q

/-- Rendering of an optional quantity (`{qty}` in the error f-string). -/
def optIntStr : Option Int → String
  | none => "None"
  | some q => toString q

/-- Rendering of a daily-change value (digit formatting abstracted). -/
def pvalStr : PVal → String
  | PVal.fin q => toString q
  | PVal.inf => "inf"
  | PVal.ninf => "-inf"
  | PVal.nan => "nan"

/-- The change column of `__str__`: the formatted percent, or `"N/A"` when
the change is `None` (lines 121-125). -/
def formatChange : Option PVal → String
  | some v => pvalStr v ++ "%"
  | none => "N/A"

/-- The header lines of `__str__` (lines 107-110; column padding abstracted). -/
def headerStr : String :=
  "Portfolio Holdings:\n" ++ "Ticker Price Change % Qty Value\n" ++
    "----------------------------------------------------\n"

/-- The row `__str__` emits for one dict entry, as a total function: the data
row when price and quantity are both present, the per-row error line
otherwise (lines 112-129). -/
def rowPure (quotes : Quotes) (ticker : String) (s : Stock) : String :=
  match getPrice quotes s, s.quantity with
  | some pr, some q =>
    ticker ++ " $" ++ toString pr ++ " " ++
      formatChange (getDailyChangePercent quotes s) ++ " " ++ toString q ++
      " $" ++ toString (pr * (q : Rat)) ++ "\n"
  | po, qo =>
    ticker ++ ": Error (Price: " ++ optRatStr po ++ ", Qty: " ++
      optIntStr qo ++ ")\n"

/-- The loop body of `__str__` for one entry, keeping the Python control flow:
the multiplication `price * qty` (which would raise `TypeError` on a `None`
operand) is only reached under the `is not None` guard. -/
def strRowE (quotes : Quotes) (ticker : String) (s : Stock) :
    Except PyErr String :=
  let po := getPrice quotes s
  if po.isSome && s.quantity.isSome then do
    let v ← pyMulE po s.quantity
    pure (ticker ++ " $" ++ optRatStr po ++ " " ++
      formatChange (getDailyChangePercent quotes s) ++ " " ++
      optIntStr s.quantity ++ " $" ++ toString v ++ "\n")
  else
    pure (ticker ++ ": Error (Price: " ++ optRatStr po ++ ", Qty: " ++
      optIntStr s.quantity ++ ")\n")

/-- `Portfolio.__str__` (lines 106-130): the header followed by one row per
entry in insertion order, inside `Except` so that a `TypeError` raised while
building a row would propagate. -/
def renderTable (quotes : Quotes) (p : Portfolio) : Except PyErr String :=
  p.stocks.foldl
    (fun acc e => do
      let a ← acc
      let r ← strRowE quotes e.1 e.2
      pure (a ++ r))
    (Except.ok headerStr)

/-- Concatenation of the rendered rows. -/
def concatRows : List String → String
  | [] => ""
  | r :: rest => r ++ concatRows rest

/-- The spec's (claim C9's) stated invariant: every dict key equals the
symbol of the stock it maps to. -/
def KeyMatchesSymbol (p : Portfolio) : Prop :=
  ∀ e ∈ p.stocks, e.1 = e.2.symbol

/-- The invariant the code actually maintains: every stock's symbol is the
upper-casing of its dict key. -/
def SymbolIsUpperKey (p : Portfolio) : Prop :=
  ∀ e ∈ p.stocks, e.2.symbol = pyUpper e.1

/-- One state transition of the ledger: an `add_stock`, a `remove_stock`, or
replacing the state by a portfolio loaded from a file. -/
inductive PStep (quotes : Quotes) : Portfolio → Portfolio → Prop where
  | add (p : Portfolio) (t : String) (q : Int) :
      PStep quotes p (addStock quotes p t q).2
  | remove (p : Portfolio) (t : String) : PStep quotes p (removeStock p t)
  | load (p : Portfolio) (rows : List (String × Int)) :
      PStep quotes p (loadFromCsv rows)

/-- Quote provider for the concrete scenarios: `AAA` quotes at 10, `BBB` is
unavailable. -/
def qAB : Quotes := fun s => if s == "AAA" then some [10] else none

/-- Holding of 2 shares of `AAA` (price obtainable). -/
def stockAAA : Stock := { symbol := "AAA", quantity := some 2, data := none }

/-- Holding of 1 share of `BBB` (price absent). -/
def stockBBB : Stock := { symbol := "BBB", quantity := some 1, data := none }

/-- Portfolio holding `AAA` (qty 2, price 10) and `BBB` (price absent). -/
def pAB : Portfolio := ⟨[("AAA", stockAAA), ("BBB", stockBBB)]⟩

/-- Quote provider whose `ZZZ` series has closes `[0, 5]` (zero prior close). -/
def qZero : Quotes := fun s => if s == "ZZZ" then some [0, 5] else none

/-- Holding of `ZZZ`, whose prior close is zero. -/
def stockZZZ : Stock := { symbol := "ZZZ", quantity := some 1, data := none }

/-- Quote provider quoting only the upper-case symbol `AA`. -/
def qLower : Quotes := fun s => if s == "AA" then some [5] else none

/-- The empty portfolio. -/
def emptyPortfolio : Portfolio := ⟨[]⟩

/-- Helper: after processing `pre`, the rolling buffer is the suffix of `pre`
of length `min w pre.length`, and one more step extends it to the
corresponding suffix of `pre ++ [c]`. -/
theorem rollStep_drop (w : Nat) (hw : 0 < w) (pre : List Rat) (c : Rat) :
    rollStep w (pre.drop (pre.length - w)) c =
      (pre ++ [c]).drop (pre.length + 1 - w) := by
  unfold rollStep
  rcases Nat.lt_or_ge pre.length w with h | h
  · have h0 : pre.length - w = 0 := Nat.sub_eq_zero_of_le (Nat.le_of_lt h)
    have h1 : pre.length + 1 - w = 0 := Nat.sub_eq_zero_of_le h
    rw [h0, h1, List.drop_zero, List.drop_zero, if_pos]
    simpa using h
  · have hlen : (pre.drop (pre.length - w)).length = w := by
      rw [List.length_drop]; omega
    rw [if_neg (by rw [hlen]; omega)]
    rw [List.tail_drop]
    have h2 : pre.length + 1 - w = (pre.length - w) + 1 := by omega
    rw [h2, List.drop_append_of_le_length (by omega)]

/-- Helper: the rolling mean emits one value per input close. -/
theorem rollingMeanGo_length (w : Nat) :
    ∀ (rest buf : List Rat), (rollingMeanGo w buf rest).length = rest.length := by
  intro rest
  induction rest with
  | nil => intro buf; rfl
  | cons c rest ih => intro buf; simp [rollingMeanGo, ih]

/-- Helper: `rollingMean` preserves the series length. -/
theorem rollingMean_length (w : Nat) (closes : List Rat) :
    (rollingMean w closes).length = closes.length :=
  rollingMeanGo_length w closes []

/-- Helper: closed form of the rolling-mean worker — position `i` of the
output is absent while fewer than `w` closes have accumulated, and otherwise
the mean of the `w` closes ending at that position. -/
theorem rollingMeanGo_getD (w : Nat) (hw : 0 < w) :
    ∀ (rest pre : List Rat) (i : Nat), i < rest.length →
      (rollingMeanGo w (pre.drop (pre.length - w)) rest).getD i none =
        (if pre.length + i + 1 < w then none
         else some ((((pre ++ rest).take (pre.length + i + 1)).drop
            (pre.length + i + 1 - w)).sum / (w : Rat))) := by
  intro rest
  induction rest with
  | nil => intro pre i h; simp at h
  | cons c rest ih =>
    intro pre i h
    rw [rollingMeanGo, rollStep_drop w hw pre c]
    cases i with
    | zero =>
      simp only [List.getD_cons_zero, Nat.add_zero]
      have hlen : ((pre ++ [c]).drop (pre.length + 1 - w)).length =
          min w (pre.length + 1) := by
        rw [List.length_drop, List.length_append]; simp; omega
      have htake : (pre ++ c :: rest).take (pre.length + 1) = pre ++ [c] := by
        rw [List.take_append_eq_append_take,
          List.take_of_length_le (by omega)]
        congr 1
        have h3 : pre.length + 1 - pre.length = 1 := by omega
        rw [h3]
        rfl
      by_cases hc : pre.length + 1 < w
      · rw [if_pos (by rw [hlen]; omega), if_pos hc]
      · rw [if_neg (by rw [hlen]; omega), if_neg hc, htake]
    | succ j =>
      simp only [List.getD_cons_succ]
      have hj : j < rest.length := by simpa using Nat.lt_of_succ_lt_succ h
      have step := ih (pre ++ [c]) j hj
      have harith : pre.length + 1 + j + 1 = pre.length + (j + 1) + 1 := by omega
      rw [List.length_append] at step
      simpa [harith, List.append_assoc] using step

/-- Helper: closed form of `rollingMean` at each index. -/
theorem rollingMean_getD (w : Nat) (hw : 0 < w) (closes : List Rat) (i : Nat)
    (h : i < closes.length) :
    (rollingMean w closes).getD i none =
      (if i + 1 < w then none
       else some (((closes.take (i + 1)).drop (i + 1 - w)).sum / (w : Rat))) := by
  have := rollingMeanGo_getD w hw closes [] i h
  simpa [rollingMean] using this

/-- Claim C3: for every bar series and index `i < length`, the 5-period SMA
at `i` is absent when fewer than 5 closes (inclusive) are available up to
`i`, and otherwise equals the arithmetic mean of the 5 closes ending at `i`;
for closes `[10,11,9,12,13,14]` the SMA is first defined at index 4 with
value 11.0 and at index 5 it is 11.8 (= 59/5). -/
theorem sma_window5_spec :
    (∀ (closes : List Rat) (i : Nat), i < closes.length →
      (rollingMean 5 closes).getD i none =
        (if i + 1 < 5 then none
         else some (((closes.take (i + 1)).drop (i + 1 - 5)).sum / (5 : Rat))))
    ∧ rollingMean 5 [10, 11, 9, 12, 13, 14] =
        [none, none, none, none, some 11, some (59 / 5)] := by
  constructor
  · intro closes i h
    exact rollingMean_getD 5 (by norm_num) closes i h
  · norm_num [rollingMean, rollingMeanGo, rollStep]

/-- Witness for C3: the characterization instantiated at the spec's scenario
series and index 5. -/
theorem sma_window5_spec_witness :
    (5 : Nat) < ([(10 : Rat), 11, 9, 12, 13, 14] : List Rat).length ∧
    (rollingMean 5 [(10 : Rat), 11, 9, 12, 13, 14]).getD 5 none =
      (if 5 + 1 < 5 then none
       else some ((([(10 : Rat), 11, 9, 12, 13, 14].take (5 + 1)).drop
          (5 + 1 - 5)).sum / (5 : Rat))) :=
  ⟨by norm_num, sma_window5_spec.1 [10, 11, 9, 12, 13, 14] 5 (by norm_num)⟩

/-- Helper: pointwise description of `zipWith` under `getD`. -/
theorem getD_zipWith_mask (f : Rat → Option Rat → Bool) :
    ∀ (l1 : List Rat) (l2 : List (Option Rat)) (i : Nat),
      i < l1.length → i < l2.length →
      (List.zipWith f l1 l2).getD i false = f (l1.getD i 0) (l2.getD i none) := by
  intro l1
  induction l1 with
  | nil => intro l2 i h _; simp at h
  | cons a l1 ih =>
    intro l2 i h1 h2
    cases l2 with
    | nil => simp at h2
    | cons b l2 =>
      cases i with
      | zero => simp [List.zipWith]
      | succ j =>
        simp only [List.zipWith, List.getD_cons_succ]
        exact ih l2 j (by simpa using h1) (by simpa using h2)

/-- Claim C4: for every bar series and index `i < length`, the buy-signal
mask at `i` is true iff the SMA at `i` is defined and `close[i]` exceeds it;
in particular for `i < window - 1` (undefined SMA) the mask is false. -/
theorem buy_signal_mask_spec :
    ∀ (closes : List Rat) (i : Nat), i < closes.length →
      (((buySignalMask 5 closes).getD i false = true) ↔
        (∃ m, (rollingMean 5 closes).getD i none = some m ∧ m < closes.getD i 0))
      ∧ (i + 1 < 5 → (buySignalMask 5 closes).getD i false = false) := by
  intro closes i h
  have hlen : i < (rollingMean 5 closes).length := by
    rw [rollingMean_length]; exact h
  have hmask : (buySignalMask 5 closes).getD i false =
      (match (rollingMean 5 closes).getD i none with
       | some m => decide (m < closes.getD i 0)
       | none => false) :=
    getD_zipWith_mask _ closes (rollingMean 5 closes) i h hlen
  constructor
  · rw [hmask]
    rcases hs : (rollingMean 5 closes).getD i none with _ | m
    · simp
    · simp
  · intro hlt
    rw [hmask, rollingMean_getD 5 (by norm_num) closes i h, if_pos hlt]

/-- Witness for C4: at index 2 of the scenario series the SMA is undefined,
so the mask is false. -/
theorem buy_signal_mask_spec_witness :
    (buySignalMask 5 [(10 : Rat), 11, 9, 12, 13, 14]).getD 2 false = false :=
  (buy_signal_mask_spec [10, 11, 9, 12, 13, 14] 2 (by norm_num)).2 (by norm_num)

/-- Claim C1 (code bug): on the portfolio holding AAA (qty 2, price 10) and
BBB (absent price), `get_total_value` does not return an absent total — the
unguarded `None * quantity` inside `get_value` raises `TypeError`, which
propagates out of `sum`.  AAA alone values at 20 as the claim expects. -/
theorem total_value_type_error :
    getValue qAB stockAAA = Except.ok 20
    ∧ getValue qAB stockBBB = Except.error PyErr.typeError
    ∧ getTotalValue qAB pAB = Except.error PyErr.typeError := by
  refine ⟨?_, rfl, rfl⟩
  norm_num [getValue, pyMulE, getPrice, getDataP, qAB, stockAAA]

/-- Claim C6 (code bug): `get_value` is `quote * quantity` when the quote is
present, but on a holding whose quote is absent it raises `TypeError`
(`None * int`) instead of returning an absent value. -/
theorem get_value_type_error :
    getValue qAB stockAAA = Except.ok ((10 : Rat) * ((2 : Int) : Rat))
    ∧ getPrice qAB stockBBB = none
    ∧ getValue qAB stockBBB = Except.error PyErr.typeError := ⟨rfl, rfl, rfl⟩

/-- Claim C2 (code bug): on a series with closes `[0, 5]` (zero prior
close), `get_daily_change_percent` returns `inf` — numpy float64 division by
zero does not raise, so the `try/except` never converts it to `None` — and
not the absent value the claim requires. -/
theorem daily_change_zero_denominator :
    getDailyChangePercent qZero stockZZZ = some PVal.inf
    ∧ some PVal.inf ≠ (none : Option PVal) := by
  refine ⟨?_, by simp⟩
  norm_num [getDailyChangePercent, getDataP, qZero, stockZZZ, npDiv, pvalMul100]

/-- Claim C5: `add_stock` leaves the mapping unchanged and reports a
duplicate when the ticker is already a key; leaves it unchanged and reports
an invalid symbol when the quote source cannot produce a price; and
otherwise appends exactly one new holding carrying the given quantity under
that ticker. -/
theorem add_stock_spec :
    ∀ (quotes : Quotes) (p : Portfolio) (ticker : String) (qty : Int),
      (containsKey p.stocks ticker = true →
        addStock quotes p ticker qty = (AddResult.duplicateSymbol, p))
      ∧ (containsKey p.stocks ticker = false →
          getPrice quotes (mkStock ticker) = none →
          addStock quotes p ticker qty = (AddResult.invalidSymbol, p))
      ∧ (∀ pr : Rat, containsKey p.stocks ticker = false →
          getPrice quotes (mkStock ticker) = some pr →
          addStock quotes p ticker qty =
            (AddResult.added,
              ⟨p.stocks ++
                [(ticker,
                  { symbol := pyUpper ticker, quantity := some qty,
                    data := quotes (pyUpper ticker) })]⟩)) := by
  intro quotes p ticker qty
  refine ⟨?_, ?_, ?_⟩
  · intro hdup; simp [addStock, hdup]
  · intro hdup hpr; simp [addStock, hdup, hpr]
  · intro pr hdup hpr; simp [addStock, hdup, hpr]

/-- Witness for C5: adding AAA (qty 3) to the empty portfolio inserts
exactly one holding with quantity 3. -/
theorem add_stock_spec_witness :
    addStock qAB emptyPortfolio "AAA" 3 =
      (AddResult.added,
        ⟨[("AAA",
          { symbol := "AAA", quantity := some 3, data := some [10] })]⟩) := by
  rw [(add_stock_spec qAB emptyPortfolio "AAA" 3).2.2 10 rfl rfl]
  rfl

/-- Helper: erasing by key from a list that contains the key exactly once
removes precisely that entry. -/
theorem erasePKey (t : String) (s : Stock) :
    ∀ (pre suf : List (String × Stock)), (∀ e ∈ pre, e.1 ≠ t) →
      List.eraseP (fun e => e.1 == t) (pre ++ (t, s) :: suf) = pre ++ suf := by
  intro pre
  induction pre with
  | nil =>
    intro suf _
    simp only [List.nil_append]
    exact List.eraseP_cons_of_pos (by simp)
  | cons e pre ih =>
    intro suf hpre
    rw [List.cons_append,
      List.eraseP_cons_of_neg (by simpa using hpre e (List.mem_cons_self _ _)),
      ih suf (fun x hx => hpre x (List.mem_cons_of_mem _ hx)), List.cons_append]

/-- Claim C10: removing an absent ticker leaves the portfolio unchanged;
removing a present ticker (unique among the keys before it) deletes exactly
that entry, leaving every other entry — symbol, quantity and cached series —
untouched. -/
theorem remove_stock_spec :
    ∀ (p : Portfolio) (t : String),
      ((∀ e ∈ p.stocks, e.1 ≠ t) → removeStock p t = p)
      ∧ (∀ (pre suf : List (String × Stock)) (s : Stock),
          p.stocks = pre ++ (t, s) :: suf →
          (∀ e ∈ pre, e.1 ≠ t) →
          (removeStock p t).stocks = pre ++ suf) := by
  intro p t
  constructor
  · intro habs
    have hck : containsKey p.stocks t = false := by
      simp only [containsKey, List.any_eq_false]
      intro e he
      simpa using habs e he
    simp [removeStock, hck]
  · intro pre suf s hsplit hpre
    have hck : containsKey p.stocks t = true := by
      simp only [containsKey, List.any_eq_true]
      exact ⟨(t, s), by rw [hsplit]; simp, by simp⟩
    simp only [removeStock, hck, if_true]
    rw [hsplit]
    exact erasePKey t s pre suf hpre

/-- Witness for C10: removing BBB from the two-stock portfolio leaves
exactly the AAA entry. -/
theorem remove_stock_spec_witness :
    (removeStock pAB "BBB").stocks = [("AAA", stockAAA)] := by
  have h := (remove_stock_spec pAB "BBB").2 [("AAA", stockAAA)] [] stockBBB rfl
    (by decide)
  simpa using h

/-- Helper: the row computation of `__str__` never raises — the guarded
multiplication always succeeds — and equals the total row function. -/
theorem strRowE_eq_ok (quotes : Quotes) (ticker : String) (s : Stock) :
    strRowE quotes ticker s = Except.ok (rowPure quotes ticker s) := by
  unfold strRowE rowPure
  rcases hP : getPrice quotes s with _ | pr <;> rcases hQ : s.quantity with _ | q <;>
    simp [hP, hQ, pyMulE, optRatStr, optIntStr, pure, Except.pure, bind, Except.bind]

/-- Helper: the rendering fold always succeeds and concatenates the rows in
order. -/
theorem renderTable_go (quotes : Quotes) :
    ∀ (l : List (String × Stock)) (acc : String),
      (l.foldl (fun acc e => do
          let a ← acc
          let r ← strRowE quotes e.1 e.2
          pure (a ++ r)) (Except.ok acc) : Except PyErr String)
        = Except.ok (acc ++ concatRows (l.map (fun e => rowPure quotes e.1 e.2))) := by
  intro l
  induction l with
  | nil => intro acc; simp [concatRows]
  | cons e l ih =>
    intro acc
    rw [List.foldl_cons]
    have hstep : (do
        let a ← (Except.ok acc : Except PyErr String)
        let r ← strRowE quotes e.1 e.2
        pure (a ++ r)) = Except.ok (acc ++ rowPure quotes e.1 e.2) := by
      rw [strRowE_eq_ok]; rfl
    rw [hstep, ih]
    simp [concatRows, String.append_assoc]

/-- Claim C7: `__str__` never raises: it returns the header followed by one
row per holding in insertion order, and any holding whose price is absent
contributes the per-row error line while every other row still renders. -/
theorem render_table_spec :
    ∀ (quotes : Quotes) (p : Portfolio),
      renderTable quotes p =
        Except.ok (headerStr ++
          concatRows (p.stocks.map (fun e => rowPure quotes e.1 e.2)))
      ∧ ∀ e ∈ p.stocks, getPrice quotes e.2 = none →
          rowPure quotes e.1 e.2 =
            e.1 ++ ": Error (Price: " ++ optRatStr none ++ ", Qty: " ++
              optIntStr e.2.quantity ++ ")\n" := by
  intro quotes p
  constructor
  · exact renderTable_go quotes p.stocks headerStr
  · intro e _ hnone
    unfold rowPure
    rw [hnone]

/-- Witness for C7: the row for BBB (absent price, qty 1) is the error
line. -/
theorem render_table_spec_witness :
    rowPure qAB "BBB" stockBBB = "BBB: Error (Price: None, Qty: 1)\n" := by
  rw [(render_table_spec qAB pAB).2 ("BBB", stockBBB) (by simp [pAB]) rfl]
  rfl

/-- Helper: key membership is false when no entry carries the key. -/
theorem containsKey_eq_false (l : List (String × Stock)) (k : String)
    (h : ∀ e ∈ l, e.1 ≠ k) : containsKey l k = false := by
  simp only [containsKey, List.any_eq_false]
  intro e he
  simpa using h e he

/-- Helper: loading rows with pairwise-distinct tickers appends, in order,
one freshly constructed stock per row. -/
theorem load_go :
    ∀ (rows : List (String × Int)) (acc : List (String × Stock)),
      (rows.map (fun r => r.1)).Nodup →
      (∀ r ∈ rows, ∀ e ∈ acc, r.1 ≠ e.1) →
      (rows.foldl
        (fun (p : Portfolio) r => ⟨dictInsert p.stocks r.1 (loadedStock r)⟩)
        ⟨acc⟩).stocks
        = acc ++ rows.map (fun r => (r.1, loadedStock r)) := by
  intro rows
  induction rows with
  | nil => intro acc _ _; simp
  | cons r rows ih =>
    intro acc hnodup hdisj
    rw [List.foldl_cons]
    have hck : containsKey acc r.1 = false :=
      containsKey_eq_false acc r.1
        (fun e he => (hdisj r (List.mem_cons_self _ _) e he).symm)
    have hins : dictInsert acc r.1 (loadedStock r)
        = acc ++ [(r.1, loadedStock r)] := by
      simp [dictInsert, hck]
    rw [hins]
    have hnodup' : (rows.map (fun r => r.1)).Nodup := by
      simpa using (List.nodup_cons.mp (by simpa using hnodup)).2
    have hnotmem : r.1 ∉ rows.map (fun r => r.1) :=
      (List.nodup_cons.mp (by simpa using hnodup)).1
    have hdisj' : ∀ r' ∈ rows, ∀ e ∈ acc ++ [(r.1, loadedStock r)], r'.1 ≠ e.1 := by
      intro r' hr' e he
      rcases List.mem_append.mp he with h1 | h1
      · exact hdisj r' (List.mem_cons_of_mem _ hr') e h1
      · have : e = (r.1, loadedStock r) := by simpa using h1
        rw [this]
        intro hcontra
        exact hnotmem (by
          rw [← hcontra]
          exact List.mem_map_of_mem _ hr')
    rw [ih (acc ++ [(r.1, loadedStock r)]) hnodup' hdisj']
    simp

/-- Claim C8: for every portfolio whose keys are distinct, whose symbols are
the upper-cased keys and whose quantities are set (the invariants of every
portfolio the program builds), saving to CSV and loading back reconstructs
exactly the same (symbol, quantity) pairs, here even in the same order. -/
theorem save_load_roundtrip_spec :
    ∀ (p : Portfolio),
      (p.stocks.map (fun e => e.1)).Nodup →
      (∀ e ∈ p.stocks, e.2.symbol = pyUpper e.1) →
      (∀ e ∈ p.stocks, e.2.quantity.isSome = true) →
      (loadFromCsv (saveToCsv p)).stocks.map (fun e => (e.2.symbol, e.2.quantity))
        = p.stocks.map (fun e => (e.2.symbol, e.2.quantity)) := by
  intro p hnodup hsym hqty
  have hkeys : (saveToCsv p).map (fun r => r.1) = p.stocks.map (fun e => e.1) := by
    simp [saveToCsv]
  have hload : (loadFromCsv (saveToCsv p)).stocks
      = (saveToCsv p).map (fun r => (r.1, loadedStock r)) := by
    unfold loadFromCsv
    have := load_go (saveToCsv p) [] (by rw [hkeys]; exact hnodup) (by simp)
    simpa using this
  rw [hload, saveToCsv, List.map_map, List.map_map]
  apply List.map_congr_left
  intro e he
  simp only [Function.comp, loadedStock]
  rw [hsym e he]
  rcases hq : e.2.quantity with _ | q
  · exact absurd (hqty e he) (by rw [hq]; simp)
  · simp

/-- Witness for C8: the round trip on the AAA/BBB portfolio. -/
theorem save_load_roundtrip_witness :
    (loadFromCsv (saveToCsv pAB)).stocks.map (fun e => (e.2.symbol, e.2.quantity))
      = pAB.stocks.map (fun e => (e.2.symbol, e.2.quantity)) :=
  save_load_roundtrip_spec pAB (by decide) (by decide) (by decide)

/-- Counterexample to C9 as stated: from the empty portfolio (which
satisfies the claimed invariant) a single `add_stock` with the lower-case
ticker `"aa"` — quotable, since its upper-cased symbol `AA` has a price —
reaches a state whose key `"aa"` differs from its holding's symbol `"AA"`:
`add_stock` keys the dict on the raw ticker while `Stock.__init__`
upper-cases the symbol. -/
theorem key_matches_symbol_counterexample :
    KeyMatchesSymbol emptyPortfolio
    ∧ PStep qLower emptyPortfolio (addStock qLower emptyPortfolio "aa" 1).2
    ∧ ¬ KeyMatchesSymbol (addStock qLower emptyPortfolio "aa" 1).2 := by
  refine ⟨?_, PStep.add emptyPortfolio "aa" 1, ?_⟩
  · intro e he
    simp [emptyPortfolio] at he
  · intro hinv
    have hmem : (("aa",
        { symbol := "AA", quantity := some 1, data := some [5] }) : String × Stock)
        ∈ (addStock qLower emptyPortfolio "aa" 1).2.stocks := by
      rw [show (addStock qLower emptyPortfolio "aa" 1).2.stocks
          = [("aa", { symbol := "AA", quantity := some 1, data := some [5] })]
          from rfl]
      simp
    exact absurd (hinv _ hmem) (by decide)

/-- Helper: `add_stock` either leaves the mapping unchanged or appends the
one new entry. -/
theorem addStock_stocks_cases (quotes : Quotes) (p : Portfolio) (t : String)
    (q : Int) :
    (addStock quotes p t q).2.stocks = p.stocks ∨
    (addStock quotes p t q).2.stocks
      = p.stocks ++
        [(t, { symbol := pyUpper t, quantity := some q,
               data := quotes (pyUpper t) })] := by
  unfold addStock
  by_cases h : containsKey p.stocks t
  · simp [h]
  · rcases hpr : getPrice quotes (mkStock t) with _ | pr <;> simp [h, hpr]

/-- Helper: `add_stock` preserves the symbol-is-upper-cased-key invariant. -/
theorem symbolUpper_add (quotes : Quotes) (p : Portfolio) (t : String) (q : Int)
    (h : SymbolIsUpperKey p) : SymbolIsUpperKey (addStock quotes p t q).2 := by
  intro e he
  rcases addStock_stocks_cases quotes p t q with hc | hc <;> rw [hc] at he
  · exact h e he
  · rcases List.mem_append.mp he with h1 | h1
    · exact h e h1
    · have he2 : e = (t, { symbol := pyUpper t, quantity := some q, data := quotes (pyUpper t) }) := by simpa using h1
      rw [he2]

/-- Helper: `remove_stock` preserves the symbol-is-upper-cased-key
invariant. -/
theorem symbolUpper_remove (p : Portfolio) (t : String)
    (h : SymbolIsUpperKey p) : SymbolIsUpperKey (removeStock p t) := by
  intro e he
  unfold removeStock at he
  split at he
  · exact h e ((List.eraseP_sublist _).subset he)
  · exact h e he

/-- Helper: dict assignment preserves any entrywise property that the new
entry satisfies. -/
theorem dictInsert_forall (P : String × Stock → Prop)
    (l : List (String × Stock)) (k : String) (v : Stock)
    (hl : ∀ e ∈ l, P e) (hv : P (k, v)) : ∀ e ∈ dictInsert l k v, P e := by
  intro e he
  unfold dictInsert at he
  split at he
  · rcases List.mem_map.mp he with ⟨x, hx, hxe⟩
    by_cases hxk : (x.1 == k) = true
    · rw [if_pos hxk] at hxe
      rw [← hxe]
      exact hv
    · rw [if_neg hxk] at hxe
      rw [← hxe]
      exact hl x hx
  · rcases List.mem_append.mp he with h1 | h1
    · exact hl e h1
    · have : e = (k, v) := by simpa using h1
      rw [this]
      exact hv

/-- Helper: every portfolio loaded from a file satisfies the
symbol-is-upper-cased-key invariant. -/
theorem symbolUpper_load (rows : List (String × Int)) :
    SymbolIsUpperKey (loadFromCsv rows) := by
  have hgen : ∀ (rows : List (String × Int)) (acc : List (String × Stock)),
      (∀ e ∈ acc, e.2.symbol = pyUpper e.1) →
      ∀ e ∈ (rows.foldl
        (fun (p : Portfolio) r => ⟨dictInsert p.stocks r.1 (loadedStock r)⟩)
        ⟨acc⟩).stocks, e.2.symbol = pyUpper e.1 := by
    intro rows
    induction rows with
    | nil => intro acc hacc; exact hacc
    | cons r rows ih =>
      intro acc hacc
      rw [List.foldl_cons]
      exact ih _ (dictInsert_forall (fun e => e.2.symbol = pyUpper e.1)
        acc r.1 (loadedStock r) hacc rfl)
  intro e he
  exact hgen rows [] (by simp) e he

/-- Claim C9 (amended): in every state reachable by load/add/remove from a
state satisfying it, every holding's symbol equals the upper-casing of its
key.  (The claim's stronger form — key equals symbol verbatim — fails, see
the counterexample: it holds only when callers pass upper-case tickers, as
the CLI does.) -/
theorem symbol_upper_key_invariant :
    ∀ (quotes : Quotes) (p₀ p : Portfolio),
      SymbolIsUpperKey p₀ →
      Relation.ReflTransGen (PStep quotes) p₀ p →
      SymbolIsUpperKey p := by
  intro quotes p0 p h0 hsteps
  induction hsteps with
  | refl => exact h0
  | tail hrest hstep ih =>
    cases hstep with
    | add t q => exact symbolUpper_add quotes _ t q ih
    | remove t => exact symbolUpper_remove _ t ih
    | load rows => exact symbolUpper_load rows

/-- Witness for C9: the invariant holds in the state reached by one
`add_stock` from the empty portfolio. -/
theorem symbol_upper_key_invariant_witness :
    SymbolIsUpperKey (addStock qLower emptyPortfolio "aa" 1).2 :=
  symbol_upper_key_invariant qLower emptyPortfolio _
    (fun e he => absurd he (by simp [emptyPortfolio]))
    (Relation.ReflTransGen.single (PStep.add emptyPortfolio "aa" 1))
